import Mathlib

/-
Verification development for the queens-dev-news ingestion pipeline.

The Python sources are shallowly embedded:
  * src/src/utils.py     : string helpers (contains_keywords, contains_borough)
  * src/src/scraper.py   : filter_items, the fresh() window predicate, the
                           per-item ingestion loop of main(), save_seen
  * src/run.py           : _dedupe, _fresh_filter, _ensure_cols, _save_excel,
                           crawl_all_safe, main and the failsafe entry point

Strings are modelled as lists of characters; timestamps as integers
(seconds); a pandas DataFrame as a column-name list plus a row list.
-/

set_option autoImplicit false

namespace QueensDev

/-- Python str.lower applied characterwise. -/
def lowerL (s : List Char) : List Char := s.map Char.toLower

/-- Does the second list start with the first? -/
def prefixAt : List Char → List Char → Bool
  | [], _ => true
  | _ :: _, [] => false
  | p :: ps, c :: cs => p == c && prefixAt ps cs

/-- Python substring containment: `pat in s`. -/
def inStr (pat : List Char) : List Char → Bool
  | [] => pat.isEmpty
  | c :: rest => prefixAt pat (c :: rest) || inStr pat rest

/-- utils.contains_keywords: any configured word, lowercased, occurs in the
lowercased text. -/
def contains_keywords (text : List Char) (anyWords : List (List Char)) : Bool :=
  anyWords.any (fun w => inStr (lowerL w) (lowerL text))

/-- utils.contains_borough: any configured borough, lowercased, occurs in the
lowercased text. -/
def contains_borough (text : List Char) (boroughs : List (List Char)) : Bool :=
  boroughs.any (fun b => inStr (lowerL b) (lowerL text))

/-- A canonical record, the row shape handled by run.py.  `date` is the
already-parsed timestamp: `none` models an absent or unparsable date
(pandas NaT after `to_datetime(..., errors="coerce")`). -/
structure Record where
  date : Option Int
  title : List Char
  neighborhood : List Char
  action : List Char
  source : List Char
  link : List Char
deriving DecidableEq

/-- The dedup identity used by run.py: the (title, link) pair. -/
def key (r : Record) : List Char × List Char := (r.title, r.link)

/-- pandas drop_duplicates(subset=["title","link"], keep="first"): keep the
first row of each key not yet seen. -/
def dropDupBy (seen : List (List Char × List Char)) : List Record → List Record
  | [] => []
  | r :: rs =>
    if key r ∈ seen then dropDupBy seen rs
    else r :: dropDupBy (key r :: seen) rs

/-- run._dedupe: if the old frame is absent or empty return the new frame
unchanged, otherwise concatenate old then new and drop duplicate
(title, link) keys keeping the first occurrence. -/
def dedupe (dfNew : List Record) (dfOld : Option (List Record)) : List Record :=
  match dfOld with
  | none => dfNew
  | some old => if old.isEmpty then dfNew else dropDupBy [] (old ++ dfNew)

/-- The key trace of drop_duplicates, used to reason about which keys
survive. -/
def keyDedup (seen : List (List Char × List Char)) :
    List (List Char × List Char) → List (List Char × List Char)
  | [] => []
  | k :: ks => if k ∈ seen then keyDedup seen ks else k :: keyDedup (k :: seen) ks

/-- The first record of the list whose (title, link) key is `k`. -/
def firstWithKey (k : List Char × List Char) : List Record → Option Record
  | [] => none
  | r :: rs => if key r = k then some r else firstWithKey k rs

/-- run._fresh_filter row predicate: a row is kept when its parsed date is
present and at or after the cutoff `now - window`; an absent (NaT) date
compares false. -/
def freshKeep (now window : Int) (r : Record) : Bool :=
  match r.date with
  | some d => decide (d ≥ now - window)
  | none => false

/-- run._fresh_filter at the row level: keep the rows inside the trailing
window.  (The empty-input branch of the Python code returns an empty frame,
which is the same row list.) -/
def freshFilter (now window : Int) (rs : List Record) : List Record :=
  rs.filter (freshKeep now window)

/-- run.DAILY_WINDOW = timedelta(days=2), in seconds. -/
def DAILY_WINDOW : Int := 2 * 24 * 3600

/-- run.WEEKLY_WINDOW = timedelta(days=7), in seconds. -/
def WEEKLY_WINDOW : Int := 7 * 24 * 3600

/-- scraper.main's fresh(d): an absent date (None/NaT, and likewise a parse
failure) is treated as fresh; otherwise the date must be at or after
`now - 7 days`. -/
def fresh (now : Int) (d : Option Int) : Bool :=
  match d with
  | none => true
  | some t => decide (t ≥ now - 7 * 24 * 3600)

/-- A scraper item as built by parse_rss / parse_html_list and tagged by
main() with `source` and `feed_name`.  `published` is the parsed date
(`none` for absent/unparsable), `preview` the optional enrichment text. -/
structure Item where
  title : List Char
  url : List Char
  summary : List Char
  published : Option Int
  source : List Char
  feedName : List Char
  preview : Option (List Char)
deriving DecidableEq

/-- The QUEENS_FEED_HINTS set of scraper.filter_items. -/
def QUEENS_FEED_HINTS : List (List Char) :=
  [("long island city".data), ("lic".data), ("astoria".data), ("flushing".data),
   ("jamaica".data), ("ridgewood".data), ("sunnyside".data), ("woodside".data),
   ("rego park".data), ("forest hills".data), ("kew gardens".data),
   ("bayside".data), ("whitestone".data), ("college point".data),
   ("maspeth".data), ("elmhurst".data), ("jackson heights".data),
   ("corona".data), ("rockaway".data), ("far rockaway".data),
   ("howard beach".data), ("middle village".data), ("ozone park".data)]

/-- filter_items' text blob: title, summary and preview joined with spaces,
lowercased. -/
def textBlob (it : Item) : List Char :=
  lowerL (it.title ++ (" ".data) ++ it.summary ++ (" ".data) ++ it.preview.getD [])

/-- filter_items' designated-feed test: the lowercased source is "yimby" and
the lowercased feed name contains one of the Queens hints. -/
def isYimbyQueensFeed (it : Item) : Bool :=
  lowerL it.source == ("yimby".data) &&
    QUEENS_FEED_HINTS.any (fun h => inStr h (lowerL it.feedName))

/-- The per-item decision of filter_items: a designated feed needs only a
topic keyword; every other record needs a borough match and a topic
keyword. -/
def keepItem (boroughs mustAny : List (List Char)) (it : Item) : Bool :=
  if isYimbyQueensFeed it then contains_keywords (textBlob it) mustAny
  else contains_borough (textBlob it) boroughs &&
    contains_keywords (textBlob it) mustAny

/-- scraper.filter_items: keep the relevant items, in order. -/
def filter_items (boroughs mustAny : List (List Char)) (items : List Item) :
    List Item :=
  items.filter (keepItem boroughs mustAny)

/-- The windowing step of scraper.main:
`df[df["published"].apply(fresh)]`. -/
def scraperWindow (now : Int) (items : List Item) : List Item :=
  items.filter (fun it => fresh now it.published)

/-- enrich_article: only the content preview field is (possibly) set; every
other field, in particular the url, is untouched.  The outcome of the
best-effort page fetch is abstracted as the oracle `enr`. -/
def enrichWith (enr : Item → Option (List Char)) (it : Item) : Item :=
  { it with preview := enr it }

/-- The per-item ingestion loop of scraper.main: skip items whose url is
already seen, enrich, filter, and only when the filter keeps the item add
its url to the seen set and append the row. -/
def ingest (boroughs mustAny : List (List Char))
    (enr : Item → Option (List Char)) :
    List (List Char) → List Item → List Item → List (List Char) × List Item
  | seen, rows, [] => (seen, rows)
  | seen, rows, it :: rest =>
    if it.url ∈ seen then ingest boroughs mustAny enr seen rows rest
    else
      let e := enrichWith enr it
      if (filter_items boroughs mustAny [e]).isEmpty then
        ingest boroughs mustAny enr seen rows rest
      else ingest boroughs mustAny enr (e.url :: seen) (rows ++ [e]) rest

/-- Lexicographic comparison on character lists, the order Python's
sorted() uses on strings. -/
def lexLe : List Char → List Char → Bool
  | [], _ => true
  | _ :: _, [] => false
  | a :: as, b :: bs => if a = b then lexLe as bs else decide (a < b)

/-- scraper.save_seen: write the seen urls sorted, one per line. -/
def save_seen (seen : List (List Char)) : List (List Char) :=
  seen.mergeSort lexLe

/-- A pandas DataFrame, abstracted to its column-name list and its rows. -/
structure Frame where
  cols : List (List Char)
  rows : List Record
deriving DecidableEq

/-- The canonical six columns of run.py, in order. -/
def CANON : List (List Char) :=
  [("date".data), ("title".data), ("neighborhood".data), ("action".data),
   ("source".data), ("link".data)]

/-- The empty frame with the canonical columns. -/
def emptyFrame : Frame := ⟨CANON, []⟩

/-- pd.concat's column union: the left frame's columns, then the right
frame's columns not already present. -/
def unionCols (a b : List (List Char)) : List (List Char) :=
  a ++ b.filter (fun c => !(a.contains c))

/-- run._ensure_cols: add missing canonical columns then select exactly the
canonical columns in order. -/
def ensure_cols (f : Option Frame) : Frame :=
  match f with
  | none => emptyFrame
  | some df => ⟨CANON, df.rows⟩

/-- run._fresh_filter at the frame level: an absent or empty frame gives the
empty canonical frame; otherwise the columns are preserved and the rows
filtered by the trailing window. -/
def fresh_filter (now window : Int) (f : Option Frame) : Frame :=
  match f with
  | none => emptyFrame
  | some df =>
    if df.rows.isEmpty then emptyFrame
    else ⟨df.cols, freshFilter now window df.rows⟩

/-- run._dedupe at the frame level: absent or empty history returns the new
frame; otherwise concatenate (unioning columns) and drop duplicate
(title, link) keys keeping the first. -/
def dedupeF (fNew : Frame) (fOld : Option Frame) : Frame :=
  match fOld with
  | none => fNew
  | some old =>
    if old.rows.isEmpty then fNew
    else ⟨unionCols old.cols fNew.cols, dropDupBy [] (old.rows ++ fNew.rows)⟩

/-- run.crawl_all_safe: each source is fetched inside its own try/except
(`none` models a source whose fetch raised; its rows contribute nothing);
the surviving rows are framed with the canonical columns and passed through
_ensure_cols. -/
def crawl_all_safe (p y c : Option (List Record)) : Frame :=
  ensure_cols (some ⟨CANON, p.getD [] ++ y.getD [] ++ c.getD []⟩)

/-- run.DAILY_SHEET. -/
def DAILY_SHEET : List Char := ("daily_log".data)

/-- run.WEEKLY_SHEET. -/
def WEEKLY_SHEET : List Char := ("weekly_rollup".data)

/-- run._save_excel: always writes both named sheets, substituting the
empty canonical frame for an absent input. -/
def save_excel (d w : Option Frame) : List (List Char × Frame) :=
  [(DAILY_SHEET, d.getD emptyFrame), (WEEKLY_SHEET, w.getD emptyFrame)]

/-- run.main: crawl (with per-source failures `none`), window-filter to the
two windows, dedup each against its loaded history sheet, and save the
artifact. -/
def runMain (p y c : Option (List Record)) (dailyOld weeklyOld : Option Frame)
    (now : Int) : List (List Char × Frame) :=
  let newDf := crawl_all_safe p y c
  let dailyDf := fresh_filter now DAILY_WINDOW (some newDf)
  let weeklyDf := fresh_filter now WEEKLY_WINDOW (some newDf)
  let dailyAll := dedupeF dailyDf dailyOld
  let weeklyAll := dedupeF weeklyDf weeklyOld
  save_excel (some dailyAll) (some weeklyAll)

/-- The failsafe write of run.py's entry point: on any unhandled exception
an artifact of two empty canonical frames is still saved. -/
def failsafeArtifact : List (List Char × Frame) :=
  save_excel (some emptyFrame) (some emptyFrame)

/-- The number of distinct (title, link) pairs in a row list. -/
def distinctKeyCount (rs : List Record) : Nat :=
  ((rs.map key).dedup).length

/-- Sample record used in concrete witnesses. -/
def rTowerA : Record :=
  ⟨some 10, ("tower a".data), [], [], ("yimby".data), ("la".data)⟩

/-- Sample record: same (title, link) as rTowerA but a later date. -/
def rTowerA2 : Record :=
  ⟨some 20, ("tower a".data), [], [], ("yimby".data), ("la".data)⟩

/-- Sample record with a different (title, link) key. -/
def rTowerB : Record :=
  ⟨some 5, ("tower b".data), [], [], ("pincusco".data), ("lb".data)⟩

/-- Sample record with an absent/unparsable date. -/
def rNoDate : Record :=
  ⟨none, ("tower c".data), [], [], ("cityrealty".data), ("lc".data)⟩

/-- Sample record dated 47 hours before time 0. -/
def rFresh47 : Record :=
  ⟨some (-(47 * 3600)), ("t47".data), [], [], [], ("u47".data)⟩

/-- Sample record dated 49 hours before time 0. -/
def rStale49 : Record :=
  ⟨some (-(49 * 3600)), ("t49".data), [], [], [], ("u49".data)⟩

/-- Sample borough keyword configuration. -/
def sampleBoroughs : List (List Char) := [("queens".data)]

/-- Sample must-have keyword configuration. -/
def sampleMustAny : List (List Char) := [("development".data)]

/-- Sample item: designated yimby source, Astoria feed, topic keyword in the
title, no borough keyword anywhere. -/
def itemAstoria : Item :=
  ⟨("new development filed".data), ("u1".data), [], none,
   ("yimby".data), ("Astoria YIMBY".data), none⟩

/-- The same content as itemAstoria but from a non-designated source. -/
def itemOtherSrc : Item :=
  ⟨("new development filed".data), ("u1".data), [], none,
   ("pincusco".data), ("Astoria YIMBY".data), none⟩

/-- The same content as itemAstoria but a feed name with no Queens hint. -/
def itemNoHint : Item :=
  ⟨("new development filed".data), ("u1".data), [], none,
   ("yimby".data), ("NY YIMBY".data), none⟩

/-- Sample item with an absent published date. -/
def itemNoDate : Item :=
  ⟨("some title".data), ("u3".data), [], none,
   ("pincusco".data), ("PincusCo".data), none⟩

/-- Sample item that fails the relevance filter (no topic keyword). -/
def itemReject : Item :=
  ⟨("nothing here".data), ("u2".data), [], none,
   ("pincusco".data), ("PincusCo".data), none⟩

theorem map_key_dropDupBy (seen : List (List Char × List Char)) (xs : List Record) :
    (dropDupBy seen xs).map key = keyDedup seen (xs.map key) := by
  induction xs generalizing seen with
  | nil => rfl
  | cons r rs ih =>
    by_cases h : key r ∈ seen
    · simp [dropDupBy, keyDedup, h, ih]
    · simp [dropDupBy, keyDedup, h, ih]

theorem mem_keyDedup (seen ks : List (List Char × List Char))
    (k : List Char × List Char) :
    k ∈ keyDedup seen ks ↔ k ∈ ks ∧ k ∉ seen := by
  induction ks generalizing seen with
  | nil => simp [keyDedup]
  | cons a as ih =>
    by_cases h : a ∈ seen
    · rw [keyDedup, if_pos h, ih]
      constructor
      · rintro ⟨hk, hns⟩; exact ⟨List.mem_cons_of_mem _ hk, hns⟩
      · rintro ⟨hk, hns⟩
        rcases List.mem_cons.mp hk with rfl | hk
        · exact absurd h hns
        · exact ⟨hk, hns⟩
    · rw [keyDedup, if_neg h]
      constructor
      · intro hmem
        rcases List.mem_cons.mp hmem with rfl | hmem
        · exact ⟨List.mem_cons_self _ _, h⟩
        · rcases (ih _).mp hmem with ⟨hk, hns⟩
          exact ⟨List.mem_cons_of_mem _ hk,
            fun hs => hns (List.mem_cons_of_mem _ hs)⟩
      · rintro ⟨hk, hns⟩
        by_cases hka : k = a
        · exact hka ▸ List.mem_cons_self _ _
        · rcases List.mem_cons.mp hk with rfl | hk
          · exact absurd rfl hka
          · refine List.mem_cons_of_mem _ ((ih _).mpr ⟨hk, ?_⟩)
            intro hs
            rcases List.mem_cons.mp hs with rfl | hs
            · exact hka rfl
            · exact hns hs

theorem nodup_keyDedup (seen ks : List (List Char × List Char)) :
    (keyDedup seen ks).Nodup := by
  induction ks generalizing seen with
  | nil => simp [keyDedup]
  | cons a as ih =>
    by_cases h : a ∈ seen
    · simpa [keyDedup, h] using ih seen
    · simp only [keyDedup, if_neg h]
      refine List.nodup_cons.mpr ⟨fun hmem => ?_, ih (a :: seen)⟩
      exact ((mem_keyDedup _ _ _).mp hmem).2 (List.mem_cons_self a seen)

theorem mem_dropDupBy (seen : List (List Char × List Char)) (xs : List Record)
    (r : Record) :
    r ∈ dropDupBy seen xs ↔ key r ∉ seen ∧ firstWithKey (key r) xs = some r := by
  induction xs generalizing seen with
  | nil => simp [dropDupBy, firstWithKey]
  | cons x rest ih =>
    by_cases h : key x ∈ seen
    · rw [dropDupBy, if_pos h, ih]
      constructor
      · rintro ⟨hns, hfst⟩
        refine ⟨hns, ?_⟩
        rw [firstWithKey, if_neg ?_]
        · exact hfst
        · intro hk; exact hns (hk ▸ h)
      · rintro ⟨hns, hfst⟩
        rw [firstWithKey] at hfst
        by_cases hk : key x = key r
        · exact absurd (hk ▸ h) hns
        · rw [if_neg hk] at hfst; exact ⟨hns, hfst⟩
    · rw [dropDupBy, if_neg h]
      constructor
      · intro hmem
        rcases List.mem_cons.mp hmem with rfl | hmem
        · exact ⟨h, by rw [firstWithKey, if_pos rfl]⟩
        · rcases (ih _).mp hmem with ⟨hns, hfst⟩
          have hkx : key x ≠ key r := fun hk =>
            hns (List.mem_cons.mpr (Or.inl hk.symm))
          refine ⟨fun hs => hns (List.mem_cons_of_mem _ hs), ?_⟩
          rw [firstWithKey, if_neg hkx]; exact hfst
      · rintro ⟨hns, hfst⟩
        rw [firstWithKey] at hfst
        by_cases hk : key x = key r
        · rw [if_pos hk] at hfst
          exact List.mem_cons.mpr (Or.inl (Option.some.inj hfst).symm)
        · rw [if_neg hk] at hfst
          refine List.mem_cons_of_mem _ ((ih _).mpr ⟨?_, hfst⟩)
          intro hs
          rcases List.mem_cons.mp hs with h1 | h1
          · exact hk h1.symm
          · exact hns h1

theorem dedupe_of_ne_nil (dfNew old : List Record) (h : old ≠ []) :
    dedupe dfNew (some old) = dropDupBy [] (old ++ dfNew) := by
  cases old with
  | nil => exact absurd rfl h
  | cons o os => rfl

theorem firstWithKey_eq_self (old : List Record) (H : Record) (hH : H ∈ old)
    (hUniq : ∀ H2 ∈ old, key H2 = key H → H2 = H) :
    firstWithKey (key H) old = some H := by
  induction old with
  | nil => cases hH
  | cons o os ih =>
    rw [firstWithKey]
    by_cases h : key o = key H
    · rw [if_pos h, hUniq o (List.mem_cons_self _ _) h]
    · rw [if_neg h]
      rcases List.mem_cons.mp hH with rfl | hH2
      · exact absurd rfl h
      · exact ih hH2 (fun H2 hm hk => hUniq H2 (List.mem_cons_of_mem _ hm) hk)

theorem firstWithKey_append_of_some (k : List Char × List Char)
    (as bs : List Record) (r : Record) (h : firstWithKey k as = some r) :
    firstWithKey k (as ++ bs) = some r := by
  induction as with
  | nil => cases h
  | cons a as ih =>
    rw [List.cons_append, firstWithKey]
    rw [firstWithKey] at h
    by_cases hk : key a = k
    · rw [if_pos hk] at h ⊢; exact h
    · rw [if_neg hk] at h ⊢; exact ih h

theorem length_keyDedup_nil (ks : List (List Char × List Char)) :
    (keyDedup [] ks).length = ks.dedup.length := by
  have h1 : (keyDedup [] ks).Nodup := nodup_keyDedup _ _
  have h2 : (keyDedup [] ks).toFinset = ks.toFinset := by
    ext k
    simp [List.mem_toFinset, mem_keyDedup]
  calc (keyDedup [] ks).length = (keyDedup [] ks).toFinset.card :=
        (List.toFinset_card_of_nodup h1).symm
    _ = ks.toFinset.card := by rw [h2]
    _ = ks.dedup.length := List.card_toFinset ks

/-- C1: the claim as stated is false: when the prior history is empty (or
absent), run._dedupe returns the new collection unchanged, so a new
collection with two records sharing a (title, link) pair survives intact.
Shown here at the explicit input new = [rTowerA, rTowerA], history empty
resp. absent. -/
theorem c1_counterexample :
    ¬ ((dedupe [rTowerA, rTowerA] (some [])).map key).Nodup ∧
    ¬ ((dedupe [rTowerA, rTowerA] none).map key).Nodup := by decide

/-- C1 (amended): when the prior history is nonempty, the dedup merge
contains no two records with the same (title, link) pair; when the history
is empty or absent, the new collection is returned unchanged (so duplicates
inside it survive). -/
theorem c1_amended_dedupe_nodup (dfNew old : List Record) (h : old ≠ []) :
    ((dedupe dfNew (some old)).map key).Nodup
    ∧ dedupe dfNew none = dfNew ∧ dedupe dfNew (some []) = dfNew := by
  refine ⟨?_, rfl, rfl⟩
  rw [dedupe_of_ne_nil _ _ h, map_key_dropDupBy]
  exact nodup_keyDedup _ _

/-- C1 witness: the amended statement evaluated at a concrete nonempty
history. -/
theorem c1_witness :
    ((dedupe [rTowerA] (some [rTowerB])).map key).Nodup
    ∧ dedupe [rTowerA] none = [rTowerA]
    ∧ dedupe [rTowerA] (some []) = [rTowerA] :=
  c1_amended_dedupe_nodup [rTowerA] [rTowerB] (by decide)

/-- C2: first-seen wins: if H is the history record for key (title, link)
(every history record with that key is H itself) and N is a distinct new
record with the same key, then the dedup merge contains H and not N. -/
theorem c2_first_seen_wins (old dfNew : List Record) (H N : Record)
    (hH : H ∈ old)
    (hUniq : ∀ H2 ∈ old, key H2 = key H → H2 = H)
    (hN : N ∈ dfNew) (hk : key N = key H) (hne : N ≠ H) :
    H ∈ dedupe dfNew (some old) ∧ N ∉ dedupe dfNew (some old) := by
  have hnil : old ≠ [] := by
    intro h0; rw [h0] at hH; cases hH
  rw [dedupe_of_ne_nil _ _ hnil]
  have hfirst : firstWithKey (key H) (old ++ dfNew) = some H :=
    firstWithKey_append_of_some _ _ _ _ (firstWithKey_eq_self old H hH hUniq)
  constructor
  · exact (mem_dropDupBy _ _ _).mpr ⟨List.not_mem_nil _, hfirst⟩
  · intro hmem
    have h2 := ((mem_dropDupBy _ _ _).mp hmem).2
    rw [hk, hfirst] at h2
    exact hne (Option.some.inj h2).symm

/-- C2 witness: history [rTowerA] (date 10), new [rTowerA2] (same title and
link, date 20): the merge keeps the history record and drops the new one. -/
theorem c2_witness :
    rTowerA ∈ dedupe [rTowerA2] (some [rTowerA]) ∧
    rTowerA2 ∉ dedupe [rTowerA2] (some [rTowerA]) :=
  c2_first_seen_wins [rTowerA] [rTowerA2] rTowerA rTowerA2 (by decide)
    (by decide) (by decide) (by decide) (by decide)

/-- C3: for the 48-hour window evaluated at now = T, a record dated
T - 47h is kept by the window filter and a record dated T - 49h is
excluded. -/
theorem c3_window_48h (T : Int) (rs : List Record) (rIn rOut : Record)
    (hIn : rIn.date = some (T - 47 * 3600))
    (hOut : rOut.date = some (T - 49 * 3600))
    (hm : rIn ∈ rs) :
    rIn ∈ freshFilter T DAILY_WINDOW rs ∧
      rOut ∉ freshFilter T DAILY_WINDOW rs := by
  constructor
  · refine List.mem_filter.mpr ⟨hm, ?_⟩
    simp only [freshKeep, hIn, DAILY_WINDOW, ge_iff_le, decide_eq_true_eq]
    omega
  · intro hmem
    have h2 := (List.mem_filter.mp hmem).2
    simp only [freshKeep, hOut, DAILY_WINDOW, ge_iff_le, decide_eq_true_eq] at h2
    omega

/-- C3 witness: at T = 0, the record dated -47h is in the filtered output
and the record dated -49h is not. -/
theorem c3_witness :
    rFresh47 ∈ freshFilter 0 DAILY_WINDOW [rFresh47, rStale49] ∧
      rStale49 ∉ freshFilter 0 DAILY_WINDOW [rFresh47, rStale49] :=
  c3_window_48h 0 [rFresh47, rStale49] rFresh47 rStale49 (by decide)
    (by decide) (by decide)

/-- C4: the claim as stated is false: the two window-filtering call sites
disagree on absent dates.  run._fresh_filter drops the absent-date record
rNoDate, but scraper.main's fresh() returns true for an absent date, so the
absent-date item stays in scraper.py's windowed output. -/
theorem c4_counterexample :
    fresh 0 none = true ∧ freshKeep 0 DAILY_WINDOW rNoDate = false ∧
    itemNoDate ∈ scraperWindow 0 [itemNoDate] ∧
    rNoDate ∉ freshFilter 0 DAILY_WINDOW [rNoDate] := by decide

/-- C4 (amended): run.py's _fresh_filter excludes every record with an
absent or unparsable date, while scraper.py's fresh() includes every item
with an absent date in its windowed output: the two call sites disagree on
absent-date handling. -/
theorem c4_amended_policy (now window : Int) (rs : List Record) (r : Record)
    (hr : r.date = none) (items : List Item) (it : Item)
    (hit : it ∈ items) (hp : it.published = none) :
    r ∉ freshFilter now window rs ∧ it ∈ scraperWindow now items := by
  constructor
  · intro hmem
    have h2 := (List.mem_filter.mp hmem).2
    simp [freshKeep, hr] at h2
  · refine List.mem_filter.mpr ⟨hit, ?_⟩
    simp [fresh, hp]

/-- C4 witness: the amended statement at concrete inputs. -/
theorem c4_witness :
    rNoDate ∉ freshFilter 5 DAILY_WINDOW [rNoDate, rTowerA] ∧
      itemNoDate ∈ scraperWindow 5 [itemNoDate, itemReject] :=
  c4_amended_policy 5 DAILY_WINDOW [rNoDate, rTowerA] rNoDate (by decide)
    [itemNoDate, itemReject] itemNoDate (by decide) (by decide)

/-- C5: a record from the designated "yimby" source whose feed name
contains the hint "astoria" and whose text blob contains a topic keyword
but no borough keyword is kept by filter_items; the same content from a
non-"yimby" source, or from a feed whose name contains no Queens hint, is
dropped. -/
theorem c5_relaxation (boroughs mustAny : List (List Char))
    (it itSrc itFeed : Item)
    (hsrc : it.source = ("yimby".data))
    (hfeed : inStr ("astoria".data) (lowerL it.feedName) = true)
    (hkw : contains_keywords (textBlob it) mustAny = true)
    (hbor : contains_borough (textBlob it) boroughs = false)
    (hSblob : textBlob itSrc = textBlob it)
    (hSsrc : lowerL itSrc.source ≠ ("yimby".data))
    (hFblob : textBlob itFeed = textBlob it)
    (hFfeed : ∀ h ∈ QUEENS_FEED_HINTS, inStr h (lowerL itFeed.feedName) = false) :
    filter_items boroughs mustAny [it] = [it]
    ∧ filter_items boroughs mustAny [itSrc] = []
    ∧ filter_items boroughs mustAny [itFeed] = [] := by
  have hyq : isYimbyQueensFeed it = true := by
    simp only [isYimbyQueensFeed, hsrc, Bool.and_eq_true, beq_iff_eq,
      List.any_eq_true]
    exact ⟨by decide, ("astoria".data), by decide, hfeed⟩
  have hkeep : keepItem boroughs mustAny it = true := by
    simp [keepItem, hyq, hkw]
  have hsrcF : (lowerL itSrc.source == ("yimby".data)) = false := by
    cases hb : lowerL itSrc.source == ("yimby".data)
    · rfl
    · exact absurd (eq_of_beq hb) hSsrc
  have hyqS : isYimbyQueensFeed itSrc = false := by
    rw [isYimbyQueensFeed, hsrcF, Bool.false_and]
  have hkS : keepItem boroughs mustAny itSrc = false := by
    simp [keepItem, hyqS, hSblob, hbor]
  have hanyF : (QUEENS_FEED_HINTS.any fun h => inStr h (lowerL itFeed.feedName))
      = false := by
    rw [List.any_eq_false]
    intro x hx
    simp [hFfeed x hx]
  have hyqF : isYimbyQueensFeed itFeed = false := by
    rw [isYimbyQueensFeed, hanyF, Bool.and_false]
  have hkF : keepItem boroughs mustAny itFeed = false := by
    simp [keepItem, hyqF, hFblob, hbor]
  refine ⟨?_, ?_, ?_⟩
  · simp [filter_items, List.filter_cons, hkeep]
  · simp [filter_items, List.filter_cons, hkS]
  · simp [filter_items, List.filter_cons, hkF]

/-- C5 witness: the concrete Astoria item is kept; the same content from
pincusco, or from a feed named "NY YIMBY", is dropped. -/
theorem c5_witness :
    filter_items sampleBoroughs sampleMustAny [itemAstoria] = [itemAstoria]
    ∧ filter_items sampleBoroughs sampleMustAny [itemOtherSrc] = []
    ∧ filter_items sampleBoroughs sampleMustAny [itemNoHint] = [] :=
  c5_relaxation sampleBoroughs sampleMustAny itemAstoria itemOtherSrc
    itemNoHint (by decide) (by decide) (by decide) (by decide) (by decide)
    (by decide) (by decide) (by decide)

/-- C6: an empty configured keyword list makes the corresponding match
condition false for every record, and with an empty must-have list
filter_items returns the empty collection on every batch. -/
theorem c6_empty_keywords_strict (text : List Char)
    (boroughs : List (List Char)) (items : List Item) :
    contains_keywords text [] = false ∧ contains_borough text [] = false ∧
    filter_items boroughs [] items = [] := by
  refine ⟨rfl, rfl, ?_⟩
  refine List.filter_eq_nil_iff.mpr ?_
  intro it _
  cases hq : isYimbyQueensFeed it
  · simp [keepItem, hq, contains_keywords]
  · simp [keepItem, hq, contains_keywords]

/-- C7: merging a collection with itself via run._dedupe preserves the
number of distinct (title, link) pairs. -/
theorem c7_dedupe_idempotent (C : List Record) :
    distinctKeyCount (dedupe C (some C)) = distinctKeyCount C := by
  cases C with
  | nil => rfl
  | cons a as =>
    rw [dedupe_of_ne_nil _ _ (by simp)]
    unfold distinctKeyCount
    rw [map_key_dropDupBy, List.dedup_eq_self.mpr (nodup_keyDedup _ _),
      length_keyDedup_nil, ← List.card_toFinset, ← List.card_toFinset,
      List.map_append, List.toFinset_append, Finset.union_self]

theorem unionCols_canon : unionCols CANON CANON = CANON := by decide

theorem cols_fresh_filter (now window : Int) (df : Frame) (h : df.cols = CANON) :
    (fresh_filter now window (some df)).cols = CANON := by
  by_cases he : df.rows.isEmpty <;> simp [fresh_filter, he, emptyFrame, h]

theorem cols_dedupeF (fNew : Frame) (fOld : Option Frame)
    (h1 : fNew.cols = CANON) (h2 : ∀ f, fOld = some f → f.cols = CANON) :
    (dedupeF fNew fOld).cols = CANON := by
  cases fOld with
  | none => simpa [dedupeF] using h1
  | some old =>
    by_cases he : old.rows.isEmpty
    · simpa [dedupeF, he] using h1
    · have hc := h2 old rfl
      have hd : dedupeF fNew (some old)
          = ⟨unionCols old.cols fNew.cols, dropDupBy [] (old.rows ++ fNew.rows)⟩ := by
        simp [dedupeF, he]
      rw [hd]
      show unionCols old.cols fNew.cols = CANON
      rw [hc, h1]
      exact unionCols_canon

/-- C8: for any run outcome, if the loaded history sheets are absent or
carry the canonical columns, the saved artifact holds exactly the two
named partitions daily_log and weekly_rollup, in order, each with the six
canonical columns; and the failsafe artifact written on an unhandled error
has the same shape. -/
theorem c8_artifact_well_formed (p y c : Option (List Record))
    (dailyOld weeklyOld : Option Frame) (now : Int)
    (hd : ∀ f, dailyOld = some f → f.cols = CANON)
    (hw : ∀ f, weeklyOld = some f → f.cols = CANON) :
    (runMain p y c dailyOld weeklyOld now).map (fun e => (e.1, e.2.cols))
        = [(DAILY_SHEET, CANON), (WEEKLY_SHEET, CANON)]
    ∧ failsafeArtifact.map (fun e => (e.1, e.2.cols))
        = [(DAILY_SHEET, CANON), (WEEKLY_SHEET, CANON)] := by
  constructor
  · have hdc : (dedupeF (fresh_filter now DAILY_WINDOW
        (some (crawl_all_safe p y c))) dailyOld).cols = CANON :=
      cols_dedupeF _ _ (cols_fresh_filter _ _ _ rfl) hd
    have hwc : (dedupeF (fresh_filter now WEEKLY_WINDOW
        (some (crawl_all_safe p y c))) weeklyOld).cols = CANON :=
      cols_dedupeF _ _ (cols_fresh_filter _ _ _ rfl) hw
    simp [runMain, save_excel, hdc, hwc]
  · decide

/-- C8 witness: a run with one fetched source and no prior history, and the
failsafe artifact, both have the canonical two-partition shape. -/
theorem c8_witness :
    (runMain (some [rTowerA]) none none none none 0).map
        (fun e => (e.1, e.2.cols))
        = [(DAILY_SHEET, CANON), (WEEKLY_SHEET, CANON)]
    ∧ failsafeArtifact.map (fun e => (e.1, e.2.cols))
        = [(DAILY_SHEET, CANON), (WEEKLY_SHEET, CANON)] :=
  c8_artifact_well_formed (some [rTowerA]) none none none none 0
    (fun _ hf => Option.noConfusion hf) (fun _ hf => Option.noConfusion hf)

/-- C9: a run in which any single source raises on fetch still collects
exactly the remaining sources' rows, completes, and persists a well-formed
artifact in which every in-window remaining record appears in the daily
partition. -/
theorem c9_partial_source_failure (a b : List Record) (now : Int) (r : Record)
    (hr : r ∈ a ++ b) (hfresh : freshKeep now DAILY_WINDOW r = true) :
    ((crawl_all_safe none (some a) (some b)).rows = a ++ b
     ∧ (crawl_all_safe (some a) none (some b)).rows = a ++ b
     ∧ (crawl_all_safe (some a) (some b) none).rows = a ++ b)
    ∧ runMain (some a) none (some b) none none now
        = [(DAILY_SHEET, ⟨CANON, freshFilter now DAILY_WINDOW (a ++ b)⟩),
           (WEEKLY_SHEET, ⟨CANON, freshFilter now WEEKLY_WINDOW (a ++ b)⟩)]
    ∧ r ∈ freshFilter now DAILY_WINDOW (a ++ b) := by
  refine ⟨⟨by simp [crawl_all_safe, ensure_cols],
    by simp [crawl_all_safe, ensure_cols],
    by simp [crawl_all_safe, ensure_cols]⟩, ?_,
    List.mem_filter.mpr ⟨hr, hfresh⟩⟩
  by_cases he : (a ++ b).isEmpty
  · have hnil : a ++ b = [] := by simpa using he
    rcases List.append_eq_nil.mp hnil with ⟨ha, hb⟩
    subst ha; subst hb
    simp [runMain, crawl_all_safe, ensure_cols, fresh_filter, dedupeF,
      save_excel, emptyFrame, freshFilter]
  · simp only [runMain, crawl_all_safe, ensure_cols, Option.getD_some,
      Option.getD_none, List.append_nil] at *
    simp [fresh_filter, dedupeF, save_excel, he]

/-- C9 witness: with the middle source failing and two singleton sources
surviving, the in-window record from the first source reaches the daily
partition of the persisted artifact. -/
theorem c9_witness :
    ((crawl_all_safe none (some [rFresh47]) (some [rStale49])).rows
        = [rFresh47] ++ [rStale49]
     ∧ (crawl_all_safe (some [rFresh47]) none (some [rStale49])).rows
        = [rFresh47] ++ [rStale49]
     ∧ (crawl_all_safe (some [rFresh47]) (some [rStale49]) none).rows
        = [rFresh47] ++ [rStale49])
    ∧ runMain (some [rFresh47]) none (some [rStale49]) none none 0
        = [(DAILY_SHEET,
            ⟨CANON, freshFilter 0 DAILY_WINDOW ([rFresh47] ++ [rStale49])⟩),
           (WEEKLY_SHEET,
            ⟨CANON, freshFilter 0 WEEKLY_WINDOW ([rFresh47] ++ [rStale49])⟩)]
    ∧ rFresh47 ∈ freshFilter 0 DAILY_WINDOW ([rFresh47] ++ [rStale49]) :=
  c9_partial_source_failure [rFresh47] [rStale49] 0 rFresh47 (by decide)
    (by decide)

theorem ingest_decomp (boroughs mustAny : List (List Char))
    (enr : Item → Option (List Char)) (items : List Item) :
    ∀ (seen : List (List Char)) (rows : List Item),
      ∃ ds : List Item,
        (ingest boroughs mustAny enr seen rows items).2 = rows ++ ds
        ∧ ((ingest boroughs mustAny enr seen rows items).1).toFinset
            = seen.toFinset ∪ (ds.map Item.url).toFinset
        ∧ ∀ e ∈ ds, keepItem boroughs mustAny e = true ∧ e.url ∉ seen := by
  induction items with
  | nil =>
    intro seen rows
    exact ⟨[], by simp [ingest], by simp [ingest], by simp⟩
  | cons it rest ih =>
    intro seen rows
    by_cases hs : it.url ∈ seen
    · obtain ⟨ds, h1, h2, h3⟩ := ih seen rows
      refine ⟨ds, ?_, ?_, h3⟩
      · simpa [ingest, hs] using h1
      · simpa [ingest, hs] using h2
    · by_cases hf : (filter_items boroughs mustAny [enrichWith enr it]).isEmpty
      · obtain ⟨ds, h1, h2, h3⟩ := ih seen rows
        refine ⟨ds, ?_, ?_, h3⟩
        · simpa [ingest, hs, hf] using h1
        · simpa [ingest, hs, hf] using h2
      · obtain ⟨ds, h1, h2, h3⟩ :=
          ih ((enrichWith enr it).url :: seen) (rows ++ [enrichWith enr it])
        have hke : keepItem boroughs mustAny (enrichWith enr it) = true := by
          cases hk : keepItem boroughs mustAny (enrichWith enr it)
          · exact absurd (by simp [filter_items, List.filter_cons, hk]) hf
          · rfl
        refine ⟨enrichWith enr it :: ds, ?_, ?_, ?_⟩
        · have := h1
          simp only [ingest, if_neg hs, if_neg hf] at *
          rw [this, List.append_assoc]
          rfl
        · have := h2
          simp only [ingest, if_neg hs, if_neg hf] at *
          rw [this, List.toFinset_cons, List.map_cons, List.toFinset_cons,
            Finset.insert_union, Finset.union_insert]
        · intro x hx
          rcases List.mem_cons.mp hx with rfl | hx
          · exact ⟨hke, hs⟩
          · rcases h3 x hx with ⟨hk1, hk2⟩
            exact ⟨hk1, fun hmem => hk2 (List.mem_cons_of_mem _ hmem)⟩

/-- C10: a link enters the seen set only when its item passes the relevance
filter: the persisted seen set equals (as a set) the loaded seen set plus
exactly the links of the kept rows, and every kept row passed the filter
and had an unseen link. -/
theorem c10_seen_set_invariant (boroughs mustAny : List (List Char))
    (enr : Item → Option (List Char)) (seen0 : List (List Char))
    (items : List Item) (e : Item)
    (he : e ∈ (ingest boroughs mustAny enr seen0 [] items).2) :
    (save_seen (ingest boroughs mustAny enr seen0 [] items).1).toFinset
        = seen0.toFinset
          ∪ (((ingest boroughs mustAny enr seen0 [] items).2).map
              Item.url).toFinset
    ∧ keepItem boroughs mustAny e = true ∧ e.url ∉ seen0 := by
  obtain ⟨ds, h1, h2, h3⟩ := ingest_decomp boroughs mustAny enr items seen0 []
  have hds : (ingest boroughs mustAny enr seen0 [] items).2 = ds := by
    simpa using h1
  refine ⟨?_, h3 e (by rwa [hds] at he)⟩
  have hperm : (save_seen (ingest boroughs mustAny enr seen0 [] items).1).toFinset
      = ((ingest boroughs mustAny enr seen0 [] items).1).toFinset := by
    ext x
    simp [save_seen, List.mem_toFinset, (List.mergeSort_perm _ _).mem_iff]
  rw [hperm, h2, hds]

/-- C10 witness: ingesting a kept item and a rejected item from a nonempty
initial seen set: the persisted seen set is the initial set plus exactly
the kept item's link, and the kept item passed the filter and was unseen. -/
theorem c10_witness :
    (save_seen (ingest sampleBoroughs sampleMustAny (fun _ => none)
        [("u0".data)] [] [itemAstoria, itemReject]).1).toFinset
        = ([("u0".data)] : List (List Char)).toFinset
          ∪ (((ingest sampleBoroughs sampleMustAny (fun _ => none)
              [("u0".data)] [] [itemAstoria, itemReject]).2).map
              Item.url).toFinset
    ∧ keepItem sampleBoroughs sampleMustAny itemAstoria = true
    ∧ itemAstoria.url ∉ ([("u0".data)] : List (List Char)) :=
  c10_seen_set_invariant sampleBoroughs sampleMustAny (fun _ => none)
    [("u0".data)] [itemAstoria, itemReject] itemAstoria (by decide)

end QueensDev
